import Mathlib

/-!
Shallow embedding of the tsdata Go package (tsdata.go): a TSData file
metadata header parser/validator, per-column type-checking predicates, a
data-line validator and a header serializer.  Strings are modelled as
`List Char`; Go's standard-library helpers used by the package
(`strings.Split`, `strings.TrimSpace`, `strings.TrimRight`,
`strings.TrimSuffix`, `strings.Join`, `time.Parse` with the RFC3339
layout, `strconv.ParseFloat`, `strconv.ParseInt`) are embedded
explicitly below.
-/

namespace TsdataModel

/-- Convert a string literal to the `List Char` representation used by the
model. -/
def chars (s : String) : List Char := s.data

/-- Go `unicode.IsSpace`: the Unicode White_Space property, which is what
`strings.TrimSpace` trims. -/
def goIsSpace (c : Char) : Bool :=
  c == ' ' || c == '\t' || c == '\n' || c == '\x0b' || c == '\x0c' || c == '\r' ||
  c.val == 0x85 || c.val == 0xa0 || c.val == 0x1680 ||
  (0x2000 ≤ c.val && c.val ≤ 0x200a) ||
  c.val == 0x2028 || c.val == 0x2029 || c.val == 0x202f ||
  c.val == 0x205f || c.val == 0x3000

/-- Drop characters satisfying `p` from the front. -/
def trimLeftP (p : Char → Bool) (l : List Char) : List Char := l.dropWhile p

/-- Drop characters satisfying `p` from the back. -/
def trimRightP (p : Char → Bool) (l : List Char) : List Char :=
  (l.reverse.dropWhile p).reverse

/-- Go `strings.TrimSpace`. -/
def trimSpace (l : List Char) : List Char :=
  trimRightP goIsSpace (trimLeftP goIsSpace l)

/-- Go `strings.TrimRight(line, " \t\r")` as used on each header line. -/
def trimRightLine (l : List Char) : List Char :=
  trimRightP (fun c => c == ' ' || c == '\t' || c == '\r') l

/-- Go `strings.Split(s, sep)` for a one-character separator: splits at
every occurrence; the empty string yields one empty field. -/
def splitOnChar (d : Char) : List Char → List (List Char)
  | [] => [[]]
  | c :: rest =>
    match splitOnChar d rest with
    | [] => [[c]]
    | h :: t => if c = d then [] :: h :: t else (c :: h) :: t

/-- Split on the tab delimiter (`Delim` in the Go source). -/
def splitTab (l : List Char) : List (List Char) := splitOnChar '\t' l

/-- Split a header block into lines. -/
def splitNewline (l : List Char) : List (List Char) := splitOnChar '\n' l

/-- Go `strings.Join(xs, "\t")`. -/
def joinTab : List (List Char) → List Char
  | [] => []
  | [x] => x
  | x :: y :: ys => x ++ '\t' :: joinTab (y :: ys)

/-- Go `strings.TrimSuffix(header, "\n")`. -/
def trimNewlineSuffix (l : List Char) : List Char :=
  if l.getLast? = some '\n' then l.dropLast else l

/-! ### Go `time.Parse(time.RFC3339, s)`

Embedding of Go's generic layout-driven parser applied to the layout
`"2006-01-02T15:04:05Z07:00"`: a 4-digit year, 2-digit month and day, a
literal separator, an hour of one or two digits (the layout element `15`
is not zero-padded), 2-digit minute and second, an optional fractional
second introduced by `.` or `,`, and a zone that is either `Z` or a
signed `hh:mm` offset; the whole input must be consumed and month, day,
hour, minute and second must be in range.  The separator is a parameter
so that the specification's reading (`T` or a space) can be stated
alongside the code's (`T` only). -/

/-- Numeric value of a decimal digit character. -/
def digitVal (c : Char) : Nat := c.toNat - '0'.toNat

/-- Value of a list of decimal digit characters. -/
def digitsVal (l : List Char) : Nat := l.foldl (fun a c => a * 10 + digitVal c) 0

/-- Go `getnum(s, true)`: exactly two digits. -/
def getnum2 : List Char → Option (Nat × List Char)
  | a :: b :: rest =>
    if a.isDigit && b.isDigit then some (digitVal a * 10 + digitVal b, rest) else none
  | _ => none

/-- Go `getnum(s, false)`: one or two digits (used for the hour). -/
def getnum12 : List Char → Option (Nat × List Char)
  | a :: b :: rest =>
    if a.isDigit then
      if b.isDigit then some (digitVal a * 10 + digitVal b, rest)
      else some (digitVal a, b :: rest)
    else none
  | [a] => if a.isDigit then some (digitVal a, []) else none
  | [] => none

/-- The `stdLongYear` layout element: four decimal digits. -/
def getYear4 : List Char → Option (Nat × List Char)
  | a :: b :: c :: d :: rest =>
    if a.isDigit && b.isDigit && c.isDigit && d.isDigit then
      some (digitVal a * 1000 + digitVal b * 100 + digitVal c * 10 + digitVal d, rest)
    else none
  | _ => none

/-- Consume one expected literal character. -/
def expectChar (c : Char) : List Char → Option (List Char)
  | x :: rest => if x = c then some rest else none
  | [] => none

/-- Nanoseconds denoted by a nonempty digit run after the decimal mark:
only the first nine digits are significant (Go `parseNanoseconds`). -/
def nanosOfDigits (ds : List Char) : Nat :=
  digitsVal (ds.take 9) * 10 ^ (9 - min ds.length 9)

/-- Optional fractional second: `.` or `,` followed by at least one
digit; consumes the whole digit run. -/
def fracPart (l : List Char) : Nat × List Char :=
  match l with
  | p :: d :: _ =>
    if (p == '.' || p == ',') && d.isDigit then
      (nanosOfDigits ((l.drop 1).takeWhile Char.isDigit),
        (l.drop 1).dropWhile Char.isDigit)
    else (0, l)
  | _ => (0, l)

/-- The `stdISO8601ColonTZ` layout element `Z07:00`: `Z`, or a sign, a
two-digit hour, a colon and a two-digit minute.  Returns the zone offset
in seconds. -/
def parseZone : List Char → Option (Int × List Char)
  | 'Z' :: rest => some (0, rest)
  | s0 :: h1 :: h2 :: c3 :: m1 :: m2 :: rest =>
    if (s0 == '+' || s0 == '-') && c3 == ':' && h1.isDigit && h2.isDigit &&
        m1.isDigit && m2.isDigit then
      let off : Int :=
        (((digitVal h1 * 10 + digitVal h2) * 60 + (digitVal m1 * 10 + digitVal m2)) * 60 : Nat)
      some (if s0 == '-' then -off else off, rest)
    else none
  | _ => none

/-- Gregorian leap year (Go `isLeap`). -/
def isLeap (y : Nat) : Bool := y % 4 == 0 && (y % 100 != 0 || y % 400 == 0)

/-- Days in a month (Go `daysIn`); total, with the month-range check done
separately as in `time.Parse`. -/
def daysIn (month year : Nat) : Nat :=
  if month = 2 then (if isLeap year then 29 else 28)
  else if month = 4 ∨ month = 6 ∨ month = 9 ∨ month = 11 then 30
  else 31

/-- The components Go's parser extracts from an RFC3339 timestamp.  The
zone offset is kept in seconds east of UTC. -/
structure Timestamp where
  year : Nat
  month : Nat
  day : Nat
  hour : Nat
  minute : Nat
  second : Nat
  nanos : Nat
  zoneOffset : Int
deriving DecidableEq

/-- Go `time.Parse` with the RFC3339 layout, generalised over the
date/time separator character. -/
def rfc3339ParseSep (sep : Char) (l : List Char) : Option Timestamp := do
  let (year, l) ← getYear4 l
  let l ← expectChar '-' l
  let (month, l) ← getnum2 l
  let l ← expectChar '-' l
  let (day, l) ← getnum2 l
  let l ← expectChar sep l
  let (hour, l) ← getnum12 l
  let l ← expectChar ':' l
  let (minute, l) ← getnum2 l
  let l ← expectChar ':' l
  let (second, l) ← getnum2 l
  let (nanos, l) := fracPart l
  let (zoneOffset, l) ← parseZone l
  if l = [] ∧ 1 ≤ month ∧ month ≤ 12 ∧ 1 ≤ day ∧ day ≤ daysIn month year ∧
      hour ≤ 23 ∧ minute ≤ 59 ∧ second ≤ 59 then
    some ⟨year, month, day, hour, minute, second, nanos, zoneOffset⟩
  else none

/-- `time.Parse(time.RFC3339, s)` as called by the Go source: the
separator is the literal `T` of the layout. -/
def goTimeParse (l : List Char) : Option Timestamp := rfc3339ParseSep 'T' l

/-! ### Go `strconv.ParseInt(s, 10, 64)` and `strconv.ParseFloat(s, 64)` -/

/-- Acceptance of `strconv.ParseInt(s, 10, 64)`: an optional sign, a
nonempty run of decimal digits (no underscores, since the base is given
explicitly), and the value must fit in a signed 64-bit integer. -/
def goParseIntOk (l : List Char) : Bool :=
  match l with
  | [] => false
  | c :: rest =>
    let neg := c = '-'
    let ds := if c = '-' ∨ c = '+' then rest else l
    if ds = [] then false
    else if ds.all Char.isDigit then
      if neg then digitsVal ds ≤ 2 ^ 63 else digitsVal ds ≤ 2 ^ 63 - 1
    else false

/-- Lower-case a Latin letter the way `strconv`'s `lower` does. -/
def lowerChar (c : Char) : Char := Char.ofNat (c.toNat ||| 0x20)

/-- Length of the common prefix of `lower(l)` and the (lower-case)
pattern, as in `strconv`'s `commonPrefixLenIgnoreCase`. -/
def commonPrefixLenCI : List Char → List Char → Nat
  | c :: cs, p :: ps => if lowerChar c = p then commonPrefixLenCI cs ps + 1 else 0
  | _, _ => 0

/-- `strconv`'s `special`: number of characters matched by an
`inf`/`infinity` form (with optional sign) or a bare `nan`, if any. -/
def floatSpecialLen (l : List Char) : Option Nat :=
  match l with
  | [] => none
  | c :: rest =>
    if c = '+' ∨ c = '-' then
      let n := commonPrefixLenCI rest (chars "infinity")
      if n = 3 ∨ n = 8 then some (n + 1) else none
    else if lowerChar c = 'i' then
      let n := commonPrefixLenCI l (chars "infinity")
      if n = 3 ∨ n = 8 then some n else none
    else if lowerChar c = 'n' then
      if commonPrefixLenCI l (chars "nan") = 3 then some 3 else none
    else none

/-- Hexadecimal digit test used by `readFloat`'s mantissa loop. -/
def isHexDigit (c : Char) : Bool :=
  c.isDigit || ('a' ≤ lowerChar c && lowerChar c ≤ 'f')

/-- The mantissa loop of `strconv`'s `readFloat`: consumes digits,
underscores and at most one decimal point; returns whether a digit was
seen and the rest of the input. -/
def mantLoop (hex : Bool) : Bool → Bool → List Char → Bool × List Char
  | _, sawdigits, [] => (sawdigits, [])
  | sawdot, sawdigits, c :: rest =>
    if c = '_' then mantLoop hex sawdot sawdigits rest
    else if c = '.' then
      if sawdot then (sawdigits, c :: rest)
      else mantLoop hex true sawdigits rest
    else if c.isDigit ∨ (hex ∧ isHexDigit c) then
      mantLoop hex sawdot true rest
    else (sawdigits, c :: rest)

/-- The exponent part of `readFloat`: the exponent character, an optional
sign, then a digit followed by digits or underscores. -/
def expLoop (expChar : Char) (l : List Char) : Option (List Char) :=
  match l with
  | c :: rest =>
    if lowerChar c = expChar then
      let rest := match rest with
        | s :: rest2 => if s = '+' ∨ s = '-' then rest2 else rest
        | [] => []
      match rest with
      | d :: _ =>
        if d.isDigit then
          some (rest.dropWhile (fun c => c.isDigit || c == '_'))
        else none
      | [] => none
    else some l
  | [] => some l

/-- `strconv`'s `underscoreOK`: underscores must separate successive
digits (a base prefix counting as a digit). -/
def underscoreOKLoop (hex : Bool) : Char → List Char → Bool
  | saw, [] => saw ≠ '_'
  | saw, c :: rest =>
    if c.isDigit ∨ (hex ∧ 'a' ≤ lowerChar c ∧ lowerChar c ≤ 'f') then
      underscoreOKLoop hex '0' rest
    else if c = '_' then
      if saw = '0' then underscoreOKLoop hex '_' rest else false
    else if saw = '_' then false
    else underscoreOKLoop hex '!' rest

/-- `strconv`'s `underscoreOK` over a whole token. -/
def underscoreOK (l : List Char) : Bool :=
  let l1 := match l with
    | c :: rest => if c = '-' ∨ c = '+' then rest else l
    | [] => l
  match l1 with
  | '0' :: b :: rest =>
    if lowerChar b = 'b' ∨ lowerChar b = 'o' ∨ lowerChar b = 'x' then
      underscoreOKLoop (lowerChar b = 'x') '0' rest
    else underscoreOKLoop false '^' l1
  | _ => underscoreOKLoop false '^' l1

/-- Syntactic acceptance of `strconv.ParseFloat(s, 64)` following
`readFloat`: optional sign, optional `0x` prefix (hexadecimal mantissas
require a `p` exponent), mantissa with at most one point and at least one
digit, optional exponent, full consumption, and well-placed underscores.
Decimal values whose magnitude overflows `float64` (which `ParseFloat`
rejects with `ErrRange`) are treated as accepted; no claim depends on
them. -/
def readFloatOk (l : List Char) : Bool :=
  let l1 := match l with
    | c :: rest => if c = '-' ∨ c = '+' then rest else l
    | [] => l
  let (hex, l2) := match l1 with
    | '0' :: x :: d :: rest =>
      if lowerChar x = 'x' then (true, d :: rest) else (false, l1)
    | _ => (false, l1)
  let (sawdigits, l3) := mantLoop hex false false l2
  if !sawdigits then false
  else
    match l3 with
    | c :: _ =>
      if lowerChar c = (if hex then 'p' else 'e') then
        match expLoop (if hex then 'p' else 'e') l3 with
        | some l4 => l4 = [] && (!l.contains '_' || underscoreOK l)
        | none => false
      else false
    | [] =>
      if hex then false
      else !l.contains '_' || underscoreOK l

/-- Acceptance of `strconv.ParseFloat(s, 64)`: a special form consumed in
full, or an ordinary mantissa/exponent form. -/
def goParseFloatOk (l : List Char) : Bool :=
  match floatSpecialLen l with
  | some n => n = l.length
  | none => readFloatOk l

/-! ### The package's constants and type-checking predicates -/

/-- `NA`, the string used to represent missing data. -/
def NA : List Char := chars "NA"

/-- `HeaderSize`, the number of lines in a header section. -/
def HeaderSize : Nat := 7

/-- Go `checkTime`. -/
def checkTime (s : List Char) : Bool :=
  match goTimeParse s with
  | none => s == NA
  | some _ => true

/-- Go `checkFloat`. -/
def checkFloat (s : List Char) : Bool :=
  if goParseFloatOk s then true else s == NA

/-- Go `checkInteger`. -/
def checkInteger (s : List Char) : Bool :=
  if goParseIntOk s then true else s == NA

/-- Go `checkText`. -/
def checkText (_ : List Char) : Bool := true

/-- Go `checkCategory`. -/
def checkCategory (s : List Char) : Bool := s != []

/-- Go `checkBoolean`. -/
def checkBoolean (s : List Char) : Bool :=
  s == chars "TRUE" || s == chars "FALSE" || s == NA

/-- The fixed `typecheckers` map from type tag to predicate, embedded as
a lookup over its six keys. -/
def lookupChecker (ty : List Char) : Option (List Char → Bool) :=
  if ty = chars "time" then some checkTime
  else if ty = chars "float" then some checkFloat
  else if ty = chars "integer" then some checkInteger
  else if ty = chars "text" then some checkText
  else if ty = chars "category" then some checkCategory
  else if ty = chars "boolean" then some checkBoolean
  else none

/-! ### The `Tsdata` struct and its methods -/

/-- The `Tsdata` struct.  `checkers` entries are `Option`s because Go's
map lookup yields a `nil` function for an unknown tag; `lastTime` is the
struct's (otherwise unused) last-seen timestamp. -/
structure Tsdata where
  checkers : List (Option (List Char → Bool))
  lastTime : Option Timestamp
  FileType : List Char
  Project : List Char
  FileDescription : List Char
  Comments : List (List Char)
  Types : List (List Char)
  Units : List (List Char)
  Headers : List (List Char)

/-- A zero-value `Tsdata`, as constructed by the package's callers before
`ParseHeader`. -/
def emptyTsdata : Tsdata :=
  { checkers := [], lastTime := none, FileType := [], Project := [],
    FileDescription := [], Comments := [], Types := [], Units := [], Headers := [] }

/-- The `Data` struct holding one validated line. -/
structure Data where
  Fields : List (List Char)
  Time : Timestamp
deriving DecidableEq

/-- The distinct failures `ValidateMetadata` reports, with the column (or
value) each error message carries. -/
inductive MetaErr where
  | missingFileType
  | missingProject
  | emptyComment (column : Nat)
  | missingTypes
  | typesCountMismatch
  | badType (value : List Char) (column : Nat)
  | missingUnits
  | unitsCountMismatch
  | emptyUnit (column : Nat)
  | missingHeaders
  | headersCountMismatch
  | firstNotTime
  | emptyHeader (column : Nat)
  | noDataColumns
deriving DecidableEq

/-- The failures `ParseHeader` reports: a wrong line count, or a
metadata-validation failure. -/
inductive HeaderErr where
  | headerShape (found : Nat)
  | validation (e : MetaErr)
deriving DecidableEq

/-- The distinct failures `ValidateLine` reports. -/
inductive LineErr where
  | tooFewColumns (found : Nat)
  | columnCountMismatch (found : Nat) (expected : Nat)
  | invalidTimestamp (value : List Char)
  | columnValidation (column : Nat) (value : List Char)
deriving DecidableEq

/-- Outcome of `ValidateLine`; `panic` marks an out-of-range index into
`checkers` or the application of a `nil` checker, which in Go would
panic. -/
inductive LineResult where
  | panic
  | err (e : LineErr)
  | ok (d : Data)
deriving DecidableEq

/-- First index (0-based) holding an empty entry, matching the
`for i, x := range` loops of `ValidateMetadata`. -/
def firstEmptyIdx : List (List Char) → Option Nat
  | [] => none
  | x :: xs =>
    if x = [] then some 0
    else (firstEmptyIdx xs).map (· + 1)

/-- First index and value with an unrecognized type tag, matching the
`typecheckers[t]` membership loop. -/
def firstUnknownType : List (List Char) → Option (Nat × List Char)
  | [] => none
  | x :: xs =>
    if (lookupChecker x).isSome then
      (firstUnknownType xs).map (fun p => (p.1 + 1, p.2))
    else some (0, x)

/-- Go `Tsdata.ValidateMetadata`: the checks in source order,
short-circuiting at the first failure. -/
def Tsdata.ValidateMetadata (t : Tsdata) : Option MetaErr :=
  if t.FileType = [] then some .missingFileType
  else if t.Project = [] then some .missingProject
  else
    match firstEmptyIdx t.Comments with
    | some i => some (.emptyComment (i + 1))
    | none =>
      let colCount := t.Comments.length
      if t.Types = [] then some .missingTypes
      else if colCount > 0 ∧ t.Types.length ≠ colCount then some .typesCountMismatch
      else
        match firstUnknownType t.Types with
        | some (i, v) => some (.badType v (i + 1))
        | none =>
          let colCount := t.Types.length
          if t.Units = [] then some .missingUnits
          else if t.Units.length ≠ colCount then some .unitsCountMismatch
          else
            match firstEmptyIdx t.Units with
            | some i => some (.emptyUnit (i + 1))
            | none =>
              if t.Headers = [] then some .missingHeaders
              else if t.Headers.length ≠ colCount then some .headersCountMismatch
              else if t.Headers.headD [] ≠ chars "time" then some .firstNotTime
              else
                match firstEmptyIdx t.Headers with
                | some i => some (.emptyHeader (i + 1))
                | none =>
                  if colCount < 2 then some .noDataColumns else none

/-- Number of lines `ParseHeader` sees after stripping one optional
trailing newline. -/
def headerLineCount (header : List Char) : Nat :=
  (splitNewline (trimNewlineSuffix header)).length

/-- The field assignments `ParseHeader` performs on its seven
right-trimmed lines: the first three lines keep only their first field,
the last four are split and per-field trimmed, but an empty line leaves
the struct's previous value in place; `checkers` is rebuilt from the
resulting `Types`. -/
def applyHeader (t : Tsdata) (header : List Char) : Tsdata :=
  let lines := (splitNewline (trimNewlineSuffix header)).map trimRightLine
  let l3 := lines.getD 3 []
  let l4 := lines.getD 4 []
  let l5 := lines.getD 5 []
  let l6 := lines.getD 6 []
  let comments := if l3 ≠ [] then (splitTab l3).map trimSpace else t.Comments
  let types := if l4 ≠ [] then (splitTab l4).map trimSpace else t.Types
  let units := if l5 ≠ [] then (splitTab l5).map trimSpace else t.Units
  let headers := if l6 ≠ [] then (splitTab l6).map trimSpace else t.Headers
  { t with
    FileType := (splitTab (lines.getD 0 [])).headD []
    Project := (splitTab (lines.getD 1 [])).headD []
    FileDescription := (splitTab (lines.getD 2 [])).headD []
    Comments := comments
    Types := types
    Units := units
    Headers := headers
    checkers := types.map lookupChecker }

/-- Go `Tsdata.ParseHeader`: reject a wrong line count, assign the
fields, then return the result of `ValidateMetadata`.  The updated struct
is returned alongside the error, mirroring the in-place mutation. -/
def Tsdata.ParseHeader (t : Tsdata) (header : List Char) : Option HeaderErr × Tsdata :=
  if headerLineCount header ≠ HeaderSize then
    (some (.headerShape (headerLineCount header)), t)
  else
    let t' := applyHeader t header
    match t'.ValidateMetadata with
    | some e => (some (.validation e), t')
    | none => (none, t')

/-- Intermediate result of the column-checking loop of `ValidateLine`. -/
inductive LoopRes where
  | panic
  | bad (column : Nat) (value : List Char)
  | ok (trimmed : List (List Char))
deriving DecidableEq

/-- The `for i := 1; i < len(fields); i++` loop of `ValidateLine`: trim
each field, look up `checkers[i]` (panicking if the index is out of range
or the checker is `nil`), and stop at the first failing column. -/
def checkLoop (cs : List (Option (List Char → Bool))) : Nat → List (List Char) → LoopRes
  | _, [] => .ok []
  | i, f :: fs =>
    let f' := trimSpace f
    match cs.get? i with
    | none => .panic
    | some none => .panic
    | some (some chk) =>
      if chk f' then
        match checkLoop cs (i + 1) fs with
        | .ok rest => .ok (f' :: rest)
        | r => r
      else .bad i f'

/-- The read-only part of `ValidateLine`, a function of the fields it
actually reads (`checkers` and `Headers`) and the line. -/
def validateLineCore (checkers : List (Option (List Char → Bool)))
    (headers : List (List Char)) (line : List Char) : LineResult :=
  let fields := splitTab line
  if fields.length < 2 then .err (.tooFewColumns fields.length)
  else if fields.length ≠ headers.length then
    .err (.columnCountMismatch fields.length headers.length)
  else
    let f0 := trimSpace (fields.headD [])
    match goTimeParse f0 with
    | none => .err (.invalidTimestamp f0)
    | some tline =>
      match checkLoop checkers 1 fields.tail with
      | .panic => .panic
      | .bad i v => .err (.columnValidation (i + 1) v)
      | .ok rest => .ok ⟨f0 :: rest, tline⟩

/-- Go `Tsdata.ValidateLine`: the core check plus the `lastTime` update
performed on success (the time-order comparison itself is commented out
in the source). -/
def Tsdata.ValidateLine (t : Tsdata) (line : List Char) : LineResult × Tsdata :=
  match validateLineCore t.checkers t.Headers line with
  | .ok d => (.ok d, { t with lastTime := some d.Time })
  | r => (r, t)

/-- Go `nas(size)`: a delimiter-joined row of `NA` tokens. -/
def nas (size : Nat) : List Char := joinTab (List.replicate size NA)

/-- Go `Tsdata.Header`: the seven header lines joined by newlines, with
no trailing newline; an empty `Comments` renders as a row of `NA`. -/
def Tsdata.Header (t : Tsdata) : List Char :=
  t.FileType ++ '\n' ::
  (t.Project ++ '\n' ::
  (t.FileDescription ++ '\n' ::
  ((if t.Comments.length = 0 then nas t.Headers.length else joinTab t.Comments) ++ '\n' ::
  (joinTab t.Types ++ '\n' ::
  (joinTab t.Units ++ '\n' ::
  joinTab t.Headers)))))

/-! ### Specification-side definitions

These follow the specification's wording (for refinement comparison with
the code-derived definitions above), not the Go source. -/

/-- Modelled from the spec, §4.3: the `time` predicate "accepts iff the
string parses as a timestamp with explicit timezone offset, accepting
both `T` and a single space as the date/time separator; also accepts
`NA`". -/
def checkTimeSpec (s : List Char) : Bool :=
  (rfc3339ParseSep 'T' s).isSome || (rfc3339ParseSep ' ' s).isSome || s == NA

/-- First `some` in a list, the spec's "in order, short-circuiting on
first failure". -/
def firstSome {α : Type} : List (Option α) → Option α
  | [] => none
  | x :: xs => match x with | some e => some e | none => firstSome xs

/-- Spec §4.2 check 1: `fileType` non-empty. -/
def specCheck1 (t : Tsdata) : Option MetaErr :=
  if t.FileType = [] then some .missingFileType else none

/-- Spec §4.2 check 2: `project` non-empty. -/
def specCheck2 (t : Tsdata) : Option MetaErr :=
  if t.Project = [] then some .missingProject else none

/-- Spec §4.2 check 3: if `comments` is non-empty, every entry is
non-empty. -/
def specCheck3 (t : Tsdata) : Option MetaErr :=
  match firstEmptyIdx t.Comments with
  | some i => some (.emptyComment (i + 1))
  | none => none

/-- Spec §4.2 check 4: `types` non-empty. -/
def specCheck4 (t : Tsdata) : Option MetaErr :=
  if t.Types = [] then some .missingTypes else none

/-- Spec §4.2 check 5: if `comments` is non-empty its length matches
`types`. -/
def specCheck5 (t : Tsdata) : Option MetaErr :=
  if t.Comments ≠ [] ∧ t.Types.length ≠ t.Comments.length then
    some .typesCountMismatch
  else none

/-- Spec §4.2 check 6: every entry of `types` is a recognized tag. -/
def specCheck6 (t : Tsdata) : Option MetaErr :=
  match firstUnknownType t.Types with
  | some (i, v) => some (.badType v (i + 1))
  | none => none

/-- Spec §4.2 check 7: `units` non-empty and of matching length. -/
def specCheck7 (t : Tsdata) : Option MetaErr :=
  if t.Units = [] then some .missingUnits
  else if t.Units.length ≠ t.Types.length then some .unitsCountMismatch
  else none

/-- Spec §4.2 check 8: every entry of `units` non-empty. -/
def specCheck8 (t : Tsdata) : Option MetaErr :=
  match firstEmptyIdx t.Units with
  | some i => some (.emptyUnit (i + 1))
  | none => none

/-- Spec §4.2 check 9: `headers` non-empty and of matching length. -/
def specCheck9 (t : Tsdata) : Option MetaErr :=
  if t.Headers = [] then some .missingHeaders
  else if t.Headers.length ≠ t.Types.length then some .headersCountMismatch
  else none

/-- Spec §4.2 check 10: the first header is literally `time`. -/
def specCheck10 (t : Tsdata) : Option MetaErr :=
  if t.Headers.headD [] ≠ chars "time" then some .firstNotTime else none

/-- Spec §4.2 check 11: every entry of `headers` non-empty. -/
def specCheck11 (t : Tsdata) : Option MetaErr :=
  match firstEmptyIdx t.Headers with
  | some i => some (.emptyHeader (i + 1))
  | none => none

/-- Spec §4.2 check 12: at least two columns. -/
def specCheck12 (t : Tsdata) : Option MetaErr :=
  if t.Types.length < 2 then some .noDataColumns else none

/-- The twelve checks of spec §4.2, in the order listed there. -/
def specChecks (t : Tsdata) : List (Option MetaErr) :=
  [specCheck1 t, specCheck2 t, specCheck3 t, specCheck4 t, specCheck5 t,
   specCheck6 t, specCheck7 t, specCheck8 t, specCheck9 t, specCheck10 t,
   specCheck11 t, specCheck12 t]

/-- Modelled from the spec, §4.2: the metadata validator as the first
failure among the twelve ordered checks. -/
def specValidate (t : Tsdata) : Option MetaErr := firstSome (specChecks t)

/-! ### Render-clean metadata (for the header round-trip)

`ParseHeader` splits on newlines and tabs, right-trims every line and
trims every cell, so only metadata whose fields survive those operations
can round-trip through `Header`. -/

/-- A scalar field (fileType, project, fileDescription) survives
rendering and re-parsing: no delimiter, no newline, and no trailing
character that the per-line right-trim would remove. -/
def cleanScalar (x : List Char) : Bool :=
  !x.contains '\t' && !x.contains '\n' && trimRightLine x == x

/-- A cell of one of the four column lists survives rendering and
re-parsing: no delimiter, no newline, and invariant under
`strings.TrimSpace`. -/
def cleanCell (x : List Char) : Bool :=
  !x.contains '\t' && !x.contains '\n' && trimSpace x == x

/-- The comments row the serializer emits: the original comments, or one
`NA` per column when `comments` is empty. -/
def commentCells (t : Tsdata) : List (List Char) :=
  if t.Comments = [] then List.replicate t.Headers.length NA else t.Comments

/-- All fields of the metadata survive rendering and re-parsing. -/
def renderClean (t : Tsdata) : Bool :=
  cleanScalar t.FileType && cleanScalar t.Project &&
  cleanScalar t.FileDescription &&
  t.Comments.all cleanCell && t.Types.all cleanCell &&
  t.Units.all cleanCell && t.Headers.all cleanCell

/-! ### Concrete fixtures used by witnesses and counterexamples -/

/-- A well-formed 7-line header: types `time, category`. -/
def hdrFix : List Char := chars "f\np\nd\n\ntime\tcategory\nNA\tNA\ntime\tcol1"

/-- The metadata obtained by parsing `hdrFix`. -/
def tFix : Tsdata := (Tsdata.ParseHeader emptyTsdata hdrFix).2

/-- A well-formed 7-line header: types `time, text`. -/
def hdrFixText : List Char := chars "f\np\nd\n\ntime\ttext\nNA\tNA\ntime\tcol1"

/-- The metadata obtained by parsing `hdrFixText`. -/
def tFixText : Tsdata := (Tsdata.ParseHeader emptyTsdata hdrFixText).2

/-- A header with only six lines. -/
def hdrSix : List Char := chars "f\np\nd\n\ntime\tcategory\nNA\tNA"

/-- A 7-line header whose second type tag is unknown. -/
def hdrBadType : List Char := chars "f\np\nd\n\ntime\tfloaty\nNA\tNA\ntime\tcol1"

/-- The timestamp denoted by `2017-05-06T19:52:57.601Z`. -/
def tsFix : Timestamp :=
  { year := 2017, month := 5, day := 6, hour := 19, minute := 52,
    second := 57, nanos := 601000000, zoneOffset := 0 }

/-- A valid, render-clean metadata value with non-empty comments. -/
def mClean : Tsdata :=
  { emptyTsdata with
      FileType := chars "fileType"
      Project := chars "project"
      FileDescription := chars "file description"
      Comments := [chars "c1", chars "c2"]
      Types := [chars "time", chars "category"]
      Units := [NA, chars "m"]
      Headers := [chars "time", chars "col1"] }

/-- `mClean` with a trailing space inside a unit: still valid metadata,
but not render-clean. -/
def mDirtyUnit : Tsdata := { mClean with Units := [NA, chars "m "] }

/-- A metadata value with an empty fileType and a single column: several
of the ordered checks fail at once. -/
def mEmptyFileType : Tsdata := { emptyTsdata with Types := [chars "time"] }

/-! ### Basic lemmas about the string operations -/

/-- Splitting never produces an empty list of fields. -/
theorem splitOnChar_ne_nil (d : Char) (l : List Char) : splitOnChar d l ≠ [] := by
  cases l with
  | nil => simp [splitOnChar]
  | cons c rest =>
    simp only [splitOnChar]
    rcases h : splitOnChar d rest with _ | ⟨x, xs⟩
    · simp
    · by_cases hc : c = d <;> simp [hc]

/-! ### Basic lemmas about the line validator -/

/-- The result component of `ValidateLine` is `validateLineCore` of the
struct's `checkers` and `Headers`. -/
theorem validateLine_fst (t : Tsdata) (line : List Char) :
    (t.ValidateLine line).1 = validateLineCore t.checkers t.Headers line := by
  unfold Tsdata.ValidateLine
  cases h : validateLineCore t.checkers t.Headers line <;> simp

/-- `ValidateLine` only ever mutates `lastTime`. -/
theorem validateLine_snd (t : Tsdata) (line : List Char) :
    (t.ValidateLine line).2.checkers = t.checkers ∧
    (t.ValidateLine line).2.Headers = t.Headers := by
  unfold Tsdata.ValidateLine
  cases h : validateLineCore t.checkers t.Headers line <;> simp

/-- A successful column loop returns the trimmed fields in order. -/
theorem checkLoop_ok_eq (cs : List (Option (List Char → Bool))) :
    ∀ (fs : List (List Char)) (i : Nat) (out : List (List Char)),
      checkLoop cs i fs = .ok out → out = fs.map trimSpace := by
  intro fs
  induction fs with
  | nil =>
    intro i out h
    simp only [checkLoop] at h
    injection h with h2
    subst h2
    rfl
  | cons f fs ih =>
    intro i out h
    simp only [checkLoop] at h
    cases hg : cs.get? i with
    | none => rw [hg] at h; exact absurd h (by simp)
    | some c =>
      rw [hg] at h
      cases c with
      | none => exact absurd h (by simp)
      | some chk =>
        simp only at h
        by_cases hchk : chk (trimSpace f) = true
        · rw [if_pos hchk] at h
          cases hrec : checkLoop cs (i + 1) fs with
          | panic => rw [hrec] at h; exact absurd h (by simp)
          | bad j v => rw [hrec] at h; exact absurd h (by simp)
          | ok rest =>
            rw [hrec] at h
            simp only [LoopRes.ok.injEq] at h
            rw [← h, ih (i + 1) rest hrec]
            simp
        · rw [if_neg hchk] at h; exact absurd h (by simp)

/-- The column loop never panics while the index stays within a
`checkers` list whose entries are all present. -/
theorem checkLoop_ne_panic (cs : List (Option (List Char → Bool))) :
    ∀ (fs : List (List Char)) (i : Nat),
      i + fs.length ≤ cs.length → (∀ c ∈ cs, c.isSome) →
      checkLoop cs i fs ≠ .panic := by
  intro fs
  induction fs with
  | nil => intro i _ _; simp [checkLoop]
  | cons f fs ih =>
    intro i hlen hall
    have hi : i < cs.length := by
      have := hlen; simp at this; omega
    have hget : cs.get? i = some (cs.get ⟨i, hi⟩) := List.get?_eq_get hi
    have hsome : (cs.get ⟨i, hi⟩).isSome := hall _ (cs.get_mem i hi)
    cases hc : cs.get ⟨i, hi⟩ with
    | none => rw [hc] at hsome; simp at hsome
    | some chk =>
      simp only [checkLoop, hget, hc]
      by_cases hchk : chk (trimSpace f) = true
      · rw [if_pos hchk]
        have hrec := ih (i + 1) (by simp at hlen ⊢; omega) hall
        cases hr : checkLoop cs (i + 1) fs with
        | panic => exact absurd hr hrec
        | bad j v => simp
        | ok rest => simp
      · rw [if_neg hchk]; simp

/-! ### Claim theorems -/

/-- Claim C1 counterexample: the claim says the `time` predicate accepts
a single space as the date/time separator, but `checkTime` (which calls
`time.Parse` with the RFC3339 layout and its literal `T`) rejects
`2017-05-06 19:52:57.601Z`, a string the specification's predicate
accepts. -/
theorem c1_counterexample :
    checkTimeSpec (chars "2017-05-06 19:52:57.601Z") = true ∧
    checkTime (chars "2017-05-06 19:52:57.601Z") = false := by
  constructor <;> decide

/-- Claim C1 (amended): the `time` type predicate returns true for
exactly those strings that parse as an RFC3339 timestamp with explicit
timezone offset and the literal `T` date/time separator, and for the
literal string `NA`; a space separator is not accepted. -/
theorem c1_time_predicate (s : List Char) :
    checkTime s = true ↔ ((goTimeParse s).isSome ∨ s = NA) := by
  unfold checkTime
  cases h : goTimeParse s with
  | none => simp [beq_iff_eq]
  | some t => simp

/-- Claim C4: when the field count passes both count checks but the
trimmed first field does not parse as a timestamp, `ValidateLine` fails
with the invalid-timestamp error carrying that trimmed value; and `NA`
never parses as a timestamp, so a first column holding `NA` is always
rejected. -/
theorem c4_first_column_timestamp (t : Tsdata) (line : List Char)
    (h2 : 2 ≤ (splitTab line).length)
    (hh : (splitTab line).length = t.Headers.length)
    (hbad : goTimeParse (trimSpace ((splitTab line).headD [])) = none) :
    (t.ValidateLine line).1 =
      .err (.invalidTimestamp (trimSpace ((splitTab line).headD []))) ∧
    goTimeParse NA = none := by
  refine ⟨?_, by decide⟩
  rw [validateLine_fst]
  simp only [validateLineCore]
  rw [if_neg (by omega), if_neg (by omega), hbad]

/-- Claim C4 witness: a two-column line whose first field is `NA`. -/
theorem c4_witness :
    (tFix.ValidateLine (chars "NA\tblue")).1 =
      .err (.invalidTimestamp (chars "NA")) :=
  (c4_first_column_timestamp tFix (chars "NA\tblue") (by decide) (by decide)
    (by decide)).1

/-- Claim C6: `ValidateLine` splits the line on the tab delimiter and
fails with the too-few-columns error when fewer than 2 fields result,
and with the column-count-mismatch error when the count is at least 2
but differs from the header count; the reported errors depend only on
the counts. -/
theorem c6_column_counts (t : Tsdata) (line : List Char) :
    ((splitTab line).length < 2 →
      (t.ValidateLine line).1 = .err (.tooFewColumns (splitTab line).length)) ∧
    (2 ≤ (splitTab line).length → (splitTab line).length ≠ t.Headers.length →
      (t.ValidateLine line).1 =
        .err (.columnCountMismatch (splitTab line).length t.Headers.length)) := by
  constructor
  · intro h
    rw [validateLine_fst]
    simp only [validateLineCore]
    rw [if_pos h]
  · intro h2 hne
    rw [validateLine_fst]
    simp only [validateLineCore]
    rw [if_neg (by omega), if_pos hne]

/-- Claim C6 witness: a one-field line and a three-field line against a
two-column header. -/
theorem c6_witness :
    (tFix.ValidateLine (chars "x")).1 = .err (.tooFewColumns 1) ∧
    (tFix.ValidateLine (chars "a\tb\tc")).1 = .err (.columnCountMismatch 3 2) :=
  ⟨(c6_column_counts tFix (chars "x")).1 (by decide),
   by
    have := (c6_column_counts tFix (chars "a\tb\tc")).2 (by decide) (by decide)
    rwa [show tFix.Headers.length = 2 by decide] at this⟩

/-- Claim C7: a line that passes all checks yields a Record whose fields
are the tab-separated fields of the line, each trimmed, in original
order (the first kept as its trimmed original string), and whose time is
the timestamp parsed from that trimmed first field. -/
theorem c7_record_contents (t : Tsdata) (line : List Char) (d : Data)
    (hok : (t.ValidateLine line).1 = .ok d) :
    d.Fields = (splitTab line).map trimSpace ∧
    goTimeParse (trimSpace ((splitTab line).headD [])) = some d.Time := by
  rw [validateLine_fst] at hok
  simp only [validateLineCore] at hok
  by_cases hlt : (splitTab line).length < 2
  · rw [if_pos hlt] at hok; exact absurd hok (by simp)
  rw [if_neg hlt] at hok
  by_cases hne : (splitTab line).length ≠ t.Headers.length
  · rw [if_pos hne] at hok; exact absurd hok (by simp)
  rw [if_neg hne] at hok
  cases hts : goTimeParse (trimSpace ((splitTab line).headD [])) with
  | none => rw [hts] at hok; exact absurd hok (by simp)
  | some tline =>
    rw [hts] at hok
    cases hloop : checkLoop t.checkers 1 (splitTab line).tail with
    | panic => rw [hloop] at hok; exact absurd hok (by simp)
    | bad i v => rw [hloop] at hok; exact absurd hok (by simp)
    | ok rest =>
      rw [hloop] at hok
      simp only [LineResult.ok.injEq] at hok
      have hrest := checkLoop_ok_eq t.checkers (splitTab line).tail 1 rest hloop
      cases hsplit : splitTab line with
      | nil => exact absurd hsplit (splitOnChar_ne_nil '\t' line)
      | cons f0 fsrest =>
        rw [← hok, hrest, hsplit]
        rw [hsplit] at hts
        simp only [List.headD_cons, List.tail_cons, List.map_cons]
        exact ⟨trivial, trivial⟩

/-- Claim C7 witness: a concrete valid line. -/
theorem c7_witness :
    (chars "2017-05-06T19:52:57.601Z" :: [chars "blue"]) =
      (splitTab (chars "2017-05-06T19:52:57.601Z\tblue")).map trimSpace ∧
    goTimeParse (trimSpace ((splitTab (chars "2017-05-06T19:52:57.601Z\tblue")).headD [])) =
      some tsFix := by
  have h := c7_record_contents tFix (chars "2017-05-06T19:52:57.601Z\tblue")
    ⟨[chars "2017-05-06T19:52:57.601Z", chars "blue"], tsFix⟩ (by decide)
  exact ⟨h.1, h.2⟩

/-- Claim C8: `checkCategory` accepts exactly the non-empty strings
while `checkText` accepts every string; consequently an empty field in a
category column is a column-validation error while the same field in a
text column validates. -/
theorem c8_category_vs_text :
    (∀ s, (checkCategory s = true ↔ s ≠ []) ∧ checkText s = true) ∧
    (tFix.ValidateLine (chars "2017-05-06T19:52:57.601Z\t")).1 =
      .err (.columnValidation 2 []) ∧
    (tFixText.ValidateLine (chars "2017-05-06T19:52:57.601Z\t")).1 =
      .ok ⟨[chars "2017-05-06T19:52:57.601Z", []], tsFix⟩ := by
  refine ⟨fun s => ⟨?_, ?_⟩, by decide, by decide⟩
  · unfold checkCategory
    simp [bne_iff_ne]
  · rfl

/-- Claim C9: validating a line leaves the result of validating it again
unchanged, and the result never depends on the struct's `lastTime` (the
time-order check is disabled), so timestamps may be non-monotonic. -/
theorem c9_idempotent_and_order_free (t : Tsdata) (line : List Char)
    (lt : Option Timestamp) :
    (Tsdata.ValidateLine (t.ValidateLine line).2 line).1 = (t.ValidateLine line).1 ∧
    (Tsdata.ValidateLine { t with lastTime := lt } line).1 = (t.ValidateLine line).1 := by
  constructor
  · rw [validateLine_fst, validateLine_fst,
      (validateLine_snd t line).1, (validateLine_snd t line).2]
  · rw [validateLine_fst, validateLine_fst]

/-! ### Metadata validation lemmas -/

/-- `firstSome` is `none` exactly when every entry is. -/
theorem firstSome_eq_none_iff {α : Type} (l : List (Option α)) :
    firstSome l = none ↔ ∀ x ∈ l, x = none := by
  induction l with
  | nil => simp [firstSome]
  | cons x xs ih =>
    cases x with
    | none => simp [firstSome, ih]
    | some e => simp [firstSome]

/-- `firstEmptyIdx` is `none` exactly when every entry is non-empty. -/
theorem firstEmptyIdx_eq_none_iff (l : List (List Char)) :
    firstEmptyIdx l = none ↔ ∀ x ∈ l, x ≠ [] := by
  induction l with
  | nil => simp [firstEmptyIdx]
  | cons x xs ih =>
    by_cases hx : x = [] <;> simp [firstEmptyIdx, hx, ih]

/-- `firstUnknownType` is `none` exactly when every tag is recognized. -/
theorem firstUnknownType_eq_none_iff (l : List (List Char)) :
    firstUnknownType l = none ↔ ∀ x ∈ l, (lookupChecker x).isSome := by
  induction l with
  | nil => simp [firstUnknownType]
  | cons x xs ih =>
    by_cases hx : (lookupChecker x).isSome <;> simp [firstUnknownType, hx, ih]

/-- The source validator agrees, check for check, with the ordered list
of twelve checks from spec §4.2. -/
theorem validateMetadata_eq_specValidate (t : Tsdata) :
    t.ValidateMetadata = specValidate t := by
  by_cases h1 : t.FileType = []
  · simp [Tsdata.ValidateMetadata, specValidate, specChecks, firstSome,
      specCheck1, h1]
  by_cases h2 : t.Project = []
  · simp [Tsdata.ValidateMetadata, specValidate, specChecks, firstSome,
      specCheck1, specCheck2, h1, h2]
  cases h3 : firstEmptyIdx t.Comments with
  | some i =>
    simp [Tsdata.ValidateMetadata, specValidate, specChecks, firstSome,
      specCheck1, specCheck2, specCheck3, h1, h2, h3]
  | none =>
    by_cases h4 : t.Types = []
    · simp [Tsdata.ValidateMetadata, specValidate, specChecks, firstSome,
        specCheck1, specCheck2, specCheck3, specCheck4, h1, h2, h3, h4]
    by_cases h5 : t.Comments ≠ [] ∧ t.Types.length ≠ t.Comments.length
    · simp [Tsdata.ValidateMetadata, specValidate, specChecks, firstSome,
        specCheck1, specCheck2, specCheck3, specCheck4, specCheck5,
        h1, h2, h3, h4, h5.1, h5.2, List.length_pos]
    cases h6 : firstUnknownType t.Types with
    | some p =>
      obtain ⟨i, v⟩ := p
      simp [Tsdata.ValidateMetadata, specValidate, specChecks, firstSome,
        specCheck1, specCheck2, specCheck3, specCheck4, specCheck5, specCheck6,
        h1, h2, h3, h4, h5, h6, List.length_pos]
    | none =>
      by_cases h7 : t.Units = []
      · simp [Tsdata.ValidateMetadata, specValidate, specChecks, firstSome,
          specCheck1, specCheck2, specCheck3, specCheck4, specCheck5,
          specCheck6, specCheck7, h1, h2, h3, h4, h5, h6, h7,
          List.length_pos]
      by_cases h7b : t.Units.length ≠ t.Types.length
      · simp [Tsdata.ValidateMetadata, specValidate, specChecks, firstSome,
          specCheck1, specCheck2, specCheck3, specCheck4, specCheck5,
          specCheck6, specCheck7, h1, h2, h3, h4, h5, h6, h7, h7b,
          List.length_pos]
      cases h8 : firstEmptyIdx t.Units with
      | some i =>
        simp [Tsdata.ValidateMetadata, specValidate, specChecks, firstSome,
          specCheck1, specCheck2, specCheck3, specCheck4, specCheck5,
          specCheck6, specCheck7, specCheck8, h1, h2, h3, h4, h5, h6, h7,
          h7b, h8, List.length_pos]
      | none =>
        by_cases h9 : t.Headers = []
        · simp [Tsdata.ValidateMetadata, specValidate, specChecks, firstSome,
            specCheck1, specCheck2, specCheck3, specCheck4, specCheck5,
            specCheck6, specCheck7, specCheck8, specCheck9, h1, h2, h3, h4,
            h5, h6, h7, h7b, h8, h9, List.length_pos]
        by_cases h9b : t.Headers.length ≠ t.Types.length
        · simp [Tsdata.ValidateMetadata, specValidate, specChecks, firstSome,
            specCheck1, specCheck2, specCheck3, specCheck4, specCheck5,
            specCheck6, specCheck7, specCheck8, specCheck9, h1, h2, h3, h4,
            h5, h6, h7, h7b, h8, h9, h9b, List.length_pos]
        by_cases h10 : t.Headers.head?.getD [] = chars "time"
        case neg =>
          simp [Tsdata.ValidateMetadata, specValidate, specChecks, firstSome,
            specCheck1, specCheck2, specCheck3, specCheck4, specCheck5,
            specCheck6, specCheck7, specCheck8, specCheck9, specCheck10,
            h1, h2, h3, h4, h5, h6, h7, h7b, h8, h9, h9b, h10,
            List.length_pos]
        cases h11 : firstEmptyIdx t.Headers with
        | some i =>
          simp [Tsdata.ValidateMetadata, specValidate, specChecks, firstSome,
            specCheck1, specCheck2, specCheck3, specCheck4, specCheck5,
            specCheck6, specCheck7, specCheck8, specCheck9, specCheck10,
            specCheck11, h1, h2, h3, h4, h5, h6, h7, h7b, h8, h9, h9b, h10,
            h11, List.length_pos]
        | none =>
          by_cases h12 : t.Types.length < 2 <;>
            simp [Tsdata.ValidateMetadata, specValidate, specChecks,
              firstSome, specCheck1, specCheck2, specCheck3, specCheck4,
              specCheck5, specCheck6, specCheck7, specCheck8, specCheck9,
              specCheck10, specCheck11, specCheck12, h1, h2, h3, h4, h5, h6,
              h7, h7b, h8, h9, h9b, h10, h11, h12, List.length_pos]

/-- Passing metadata validation, componentwise. -/
theorem validateMetadata_eq_none_iff (t : Tsdata) :
    t.ValidateMetadata = none ↔
      (t.FileType ≠ [] ∧ t.Project ≠ [] ∧
       (∀ x ∈ t.Comments, x ≠ []) ∧
       (t.Comments ≠ [] → t.Comments.length = t.Types.length) ∧
       (∀ x ∈ t.Types, (lookupChecker x).isSome) ∧
       t.Units.length = t.Types.length ∧ (∀ x ∈ t.Units, x ≠ []) ∧
       t.Headers.length = t.Types.length ∧
       t.Headers.headD [] = chars "time" ∧ (∀ x ∈ t.Headers, x ≠ []) ∧
       2 ≤ t.Types.length) := by
  rw [validateMetadata_eq_specValidate]
  unfold specValidate specChecks
  rw [firstSome_eq_none_iff]
  simp only [List.mem_cons, List.not_mem_nil, or_false, forall_eq_or_imp,
    forall_eq]
  constructor
  · rintro ⟨h1, h2, h3, h4, h5, h6, h7, h8, h9, h10, h11, h12⟩
    refine ⟨?_, ?_, ?_, ?_, ?_, ?_, ?_, ?_, ?_, ?_, ?_⟩
    · intro he; rw [specCheck1, if_pos he] at h1; exact absurd h1 (by simp)
    · intro he; rw [specCheck2, if_pos he] at h2; exact absurd h2 (by simp)
    · refine (firstEmptyIdx_eq_none_iff t.Comments).mp ?_
      rw [specCheck3] at h3
      cases hfe : firstEmptyIdx t.Comments with
      | none => rfl
      | some i => rw [hfe] at h3; exact absurd h3 (by simp)
    · intro hcne
      by_contra hne
      rw [specCheck5, if_pos ⟨hcne, fun he => hne he.symm⟩] at h5
      exact absurd h5 (by simp)
    · refine (firstUnknownType_eq_none_iff t.Types).mp ?_
      rw [specCheck6] at h6
      cases hfe : firstUnknownType t.Types with
      | none => rfl
      | some p => rw [hfe] at h6; exact absurd h6 (by simp)
    · rw [specCheck7] at h7
      by_cases hu : t.Units = []
      · rw [if_pos hu] at h7; exact absurd h7 (by simp)
      · rw [if_neg hu] at h7
        by_contra hne
        rw [if_pos hne] at h7; exact absurd h7 (by simp)
    · refine (firstEmptyIdx_eq_none_iff t.Units).mp ?_
      rw [specCheck8] at h8
      cases hfe : firstEmptyIdx t.Units with
      | none => rfl
      | some i => rw [hfe] at h8; exact absurd h8 (by simp)
    · rw [specCheck9] at h9
      by_cases hh : t.Headers = []
      · rw [if_pos hh] at h9; exact absurd h9 (by simp)
      · rw [if_neg hh] at h9
        by_contra hne
        rw [if_pos hne] at h9; exact absurd h9 (by simp)
    · rw [specCheck10] at h10
      by_contra hne
      rw [if_pos hne] at h10; exact absurd h10 (by simp)
    · refine (firstEmptyIdx_eq_none_iff t.Headers).mp ?_
      rw [specCheck11] at h11
      cases hfe : firstEmptyIdx t.Headers with
      | none => rfl
      | some i => rw [hfe] at h11; exact absurd h11 (by simp)
    · rw [specCheck12] at h12
      by_contra hne
      rw [if_pos (by omega)] at h12; exact absurd h12 (by simp)
  · rintro ⟨h1, h2, h3, h5, h6, h7, h8, h9, h10, h11, h12⟩
    have hu : t.Units ≠ [] := by
      intro he; rw [he] at h7; simp at h7; omega
    have hhd : t.Headers ≠ [] := by
      intro he; rw [he] at h9; simp at h9; omega
    have ht : t.Types ≠ [] := by
      intro he; rw [he] at h12; simp at h12
    have h10b : t.Headers.head?.getD [] = chars "time" := by
      rw [← List.headD_eq_head?]; exact h10
    refine ⟨?_, ?_, ?_, ?_, ?_, ?_, ?_, ?_, ?_, ?_, ?_, ?_⟩
    · simp [specCheck1, h1]
    · simp [specCheck2, h2]
    · simp [specCheck3, (firstEmptyIdx_eq_none_iff t.Comments).mpr h3]
    · simp [specCheck4, ht]
    · simp only [specCheck5, ite_eq_right_iff]
      intro hcc
      exact absurd (h5 hcc.1).symm hcc.2
    · simp [specCheck6, (firstUnknownType_eq_none_iff t.Types).mpr h6]
    · simp [specCheck7, hu, h7]
    · simp [specCheck8, (firstEmptyIdx_eq_none_iff t.Units).mpr h8]
    · simp [specCheck9, hhd, h9]
    · simp [specCheck10, h10b]
    · simp [specCheck11, (firstEmptyIdx_eq_none_iff t.Headers).mpr h11]
    · simp [specCheck12]; omega

/-- A recognized tag maps to one of the six fixed predicates. -/
theorem lookupChecker_cases (ty : List Char) (f : List Char → Bool)
    (h : lookupChecker ty = some f) :
    f = checkTime ∨ f = checkFloat ∨ f = checkInteger ∨ f = checkText ∨
      f = checkCategory ∨ f = checkBoolean := by
  unfold lookupChecker at h
  split_ifs at h <;> simp_all

/-- A successful `ParseHeader` returns the field-assigned struct, whose
validation succeeded. -/
theorem parseHeader_ok (t0 : Tsdata) (h : List Char)
    (hok : (t0.ParseHeader h).1 = none) :
    (t0.ParseHeader h).2 = applyHeader t0 h ∧
    (applyHeader t0 h).ValidateMetadata = none := by
  simp only [Tsdata.ParseHeader] at hok ⊢
  by_cases hc : headerLineCount h ≠ HeaderSize
  · rw [if_pos hc] at hok; exact absurd hok (by simp)
  · rw [if_neg hc] at hok ⊢
    cases hv : (applyHeader t0 h).ValidateMetadata with
    | some e => rw [hv] at hok; exact absurd hok (by simp)
    | none => exact ⟨rfl, rfl⟩

/-- Claim C5: metadata validation performs the twelve checks of §4.2 in
the listed order with short-circuiting (its result is the first failure
of the ordered spec checks); in particular an empty fileType is reported
as the missing-fileType failure no matter what else is wrong. -/
theorem c5_check_order (t : Tsdata) :
    t.ValidateMetadata = specValidate t ∧
    (t.FileType = [] → t.ValidateMetadata = some .missingFileType) := by
  refine ⟨validateMetadata_eq_specValidate t, fun hft => ?_⟩
  unfold Tsdata.ValidateMetadata
  rw [if_pos hft]

/-- Claim C5 witness: empty fileType with a single column reports the
missing-fileType failure, not the no-data-columns one. -/
theorem c5_witness :
    Tsdata.ValidateMetadata mEmptyFileType = some MetaErr.missingFileType :=
  (c5_check_order mEmptyFileType).2 (by decide)

/-- Claim C3: `ParseHeader` succeeds exactly when the input has seven
lines (after stripping an optional trailing newline) and the twelve
checks of §4.2 pass on the assigned fields; a wrong line count is
reported as the header-shape error carrying the found count, any failing
check is passed through as its own distinct validation error, and the
shape error is distinct from every validation error. -/
theorem c3_parse_header_errors (t : Tsdata) (h : List Char) :
    ((t.ParseHeader h).1 = none ↔
      headerLineCount h = HeaderSize ∧ specValidate (applyHeader t h) = none) ∧
    (headerLineCount h ≠ HeaderSize →
      (t.ParseHeader h).1 = some (.headerShape (headerLineCount h))) ∧
    (∀ e, headerLineCount h = HeaderSize →
      specValidate (applyHeader t h) = some e →
      (t.ParseHeader h).1 = some (.validation e)) ∧
    (∀ n e, HeaderErr.headerShape n ≠ HeaderErr.validation e) := by
  refine ⟨?_, ?_, ?_, fun n e => by simp⟩
  · simp only [Tsdata.ParseHeader]
    rw [validateMetadata_eq_specValidate (applyHeader t h)]
    by_cases hc : headerLineCount h ≠ HeaderSize
    · rw [if_pos hc]
      simp [hc]
    · rw [if_neg hc]
      have hceq : headerLineCount h = HeaderSize := by omega
      cases hv : specValidate (applyHeader t h) with
      | none => simp [hceq]
      | some e => simp [hceq]
  · intro hc
    simp only [Tsdata.ParseHeader]
    rw [if_pos hc]
  · intro e hcnt hsv
    simp only [Tsdata.ParseHeader]
    rw [if_neg (fun hx => hx hcnt),
      validateMetadata_eq_specValidate (applyHeader t h), hsv]

/-- Claim C3 witness: a six-line header reports the shape error with the
found count, and a seven-line header with an unknown type tag reports
that tag's distinct validation failure. -/
theorem c3_witness :
    (Tsdata.ParseHeader emptyTsdata hdrSix).1 = some (.headerShape 6) ∧
    (Tsdata.ParseHeader emptyTsdata hdrBadType).1 =
      some (.validation (.badType (chars "floaty") 2)) :=
  ⟨(c3_parse_header_errors emptyTsdata hdrSix).2.1 (by decide),
   (c3_parse_header_errors emptyTsdata hdrBadType).2.2.1 _ (by decide) (by decide)⟩

/-- Claim C10: after a successful `ParseHeader`, the checkers list has
exactly one entry per header column and every entry is one of the six
defined predicates, and `ValidateLine` never reaches an out-of-range
index into it nor applies an absent checker, on any input line. -/
theorem c10_checkers_safe (t0 : Tsdata) (h : List Char)
    (hok : (t0.ParseHeader h).1 = none) :
    (t0.ParseHeader h).2.checkers.length = (t0.ParseHeader h).2.Headers.length ∧
    (∀ c ∈ (t0.ParseHeader h).2.checkers, ∃ f, c = some f ∧
      (f = checkTime ∨ f = checkFloat ∨ f = checkInteger ∨ f = checkText ∨
        f = checkCategory ∨ f = checkBoolean)) ∧
    (∀ line, ((t0.ParseHeader h).2.ValidateLine line).1 ≠ .panic) := by
  obtain ⟨ht2, hv⟩ := parseHeader_ok t0 h hok
  rw [ht2]
  have hch : (applyHeader t0 h).checkers =
      (applyHeader t0 h).Types.map lookupChecker := rfl
  obtain ⟨-, -, -, -, hknown, -, -, hlenH, -, -, -⟩ :=
    (validateMetadata_eq_none_iff (applyHeader t0 h)).mp hv
  have hlen : (applyHeader t0 h).checkers.length =
      (applyHeader t0 h).Headers.length := by
    rw [hch, List.length_map, hlenH]
  have hmem : ∀ c ∈ (applyHeader t0 h).checkers, ∃ f, c = some f ∧
      (f = checkTime ∨ f = checkFloat ∨ f = checkInteger ∨ f = checkText ∨
        f = checkCategory ∨ f = checkBoolean) := by
    intro c hc
    rw [hch] at hc
    obtain ⟨ty, hty, rfl⟩ := List.mem_map.mp hc
    obtain ⟨f, hf⟩ := Option.isSome_iff_exists.mp (hknown ty hty)
    exact ⟨f, hf, lookupChecker_cases ty f hf⟩
  refine ⟨hlen, hmem, ?_⟩
  intro line
  rw [validateLine_fst]
  by_cases hlt : (splitTab line).length < 2
  · simp [validateLineCore, hlt]
  by_cases hne2 : (splitTab line).length ≠ (applyHeader t0 h).Headers.length
  · simp [validateLineCore, hlt, hne2]
  cases hts : goTimeParse (trimSpace ((splitTab line).head?.getD [])) with
  | none => simp [validateLineCore, hlt, hne2, hts]
  | some tl =>
    have htail : (splitTab line).tail.length = (splitTab line).length - 1 := by
      cases hsp : splitTab line with
      | nil => exact absurd hsp (splitOnChar_ne_nil '\t' line)
      | cons a l => simp
    have hle : 1 + (splitTab line).tail.length ≤
        (applyHeader t0 h).checkers.length := by omega
    have hall : ∀ c ∈ (applyHeader t0 h).checkers, c.isSome := by
      intro c hc
      obtain ⟨f, rfl, -⟩ := hmem c hc
      rfl
    have hnp := checkLoop_ne_panic (applyHeader t0 h).checkers
      (splitTab line).tail 1 hle hall
    cases hloop : checkLoop (applyHeader t0 h).checkers 1 (splitTab line).tail with
    | panic => exact absurd hloop hnp
    | bad i v => simp [validateLineCore, hlt, hne2, hts, hloop]
    | ok rest => simp [validateLineCore, hlt, hne2, hts, hloop]

/-- Claim C10 witness: the parsed fixture header validates an arbitrary
ill-typed line without panicking. -/
theorem c10_witness :
    ((Tsdata.ParseHeader emptyTsdata hdrFix).2.ValidateLine (chars "x\ty")).1 ≠
      .panic :=
  (c10_checkers_safe emptyTsdata hdrFix (by decide)).2.2 (chars "x\ty")

/-! ### String lemmas for the header round-trip -/

/-- Splitting a delimiter-free string gives one field. -/
theorem splitOnChar_eq_single {d : Char} {xs : List Char} (h : d ∉ xs) :
    splitOnChar d xs = [xs] := by
  induction xs with
  | nil => rfl
  | cons c cs ih =>
    have hd : ¬c = d := fun he => h (he ▸ List.mem_cons_self c cs)
    have hcs : d ∉ cs := fun hm => h (List.mem_cons_of_mem _ hm)
    simp [splitOnChar, ih hcs, hd]

/-- Splitting at the first delimiter occurrence. -/
theorem splitOnChar_append {d : Char} {xs ys : List Char} (h : d ∉ xs) :
    splitOnChar d (xs ++ d :: ys) = xs :: splitOnChar d ys := by
  induction xs with
  | nil =>
    simp only [List.nil_append, splitOnChar]
    cases hs : splitOnChar d ys with
    | nil => exact absurd hs (splitOnChar_ne_nil d ys)
    | cons a l => simp
  | cons c cs ih =>
    have hd : ¬c = d := fun he => h (he ▸ List.mem_cons_self c cs)
    have hcs : d ∉ cs := fun hm => h (List.mem_cons_of_mem _ hm)
    simp only [List.cons_append, splitOnChar, List.append_eq]
    rw [ih hcs]
    simp [hd]

/-- A join of nonempty cells is nonempty. -/
theorem joinTab_ne_nil {x : List Char} (xs : List (List Char)) (hx : x ≠ []) :
    joinTab (x :: xs) ≠ [] := by
  cases xs with
  | nil => simpa [joinTab] using hx
  | cons y ys => simp [joinTab]

/-- A character other than the delimiter appears in a join only through
one of the cells. -/
theorem not_mem_joinTab {c : Char} (hc : c ≠ '\t') :
    ∀ l : List (List Char), (∀ x ∈ l, c ∉ x) → c ∉ joinTab l := by
  intro l
  induction l with
  | nil => intro _; simp [joinTab]
  | cons x xs ih =>
    intro h
    cases xs with
    | nil => simpa [joinTab] using h x (by simp)
    | cons y ys =>
      intro hmem
      rw [show joinTab (x :: y :: ys) = x ++ '\t' :: joinTab (y :: ys) from rfl] at hmem
      rcases List.mem_append.mp hmem with h1 | h2
      · exact h x (by simp) h1
      · rcases List.mem_cons.mp h2 with h3 | h4
        · exact hc h3
        · exact ih (fun z hz => h z (by simp [hz])) h4

/-- Splitting inverts joining for tab-free cells. -/
theorem splitTab_joinTab :
    ∀ l : List (List Char), l ≠ [] → (∀ x ∈ l, ('\t' : Char) ∉ x) →
      splitTab (joinTab l) = l := by
  intro l
  induction l with
  | nil => intro h; exact absurd rfl h
  | cons x xs ih =>
    intro _ ht
    cases xs with
    | nil =>
      show splitOnChar '\t' (joinTab [x]) = [x]
      rw [show joinTab [x] = x from rfl]
      exact splitOnChar_eq_single (ht x (by simp))
    | cons y ys =>
      show splitOnChar '\t' (x ++ '\t' :: joinTab (y :: ys)) = x :: y :: ys
      rw [splitOnChar_append (ht x (by simp))]
      rw [show splitOnChar '\t' (joinTab (y :: ys)) = splitTab (joinTab (y :: ys)) from rfl,
        ih (by simp) (fun z hz => ht z (by simp [hz]))]

/-- The last character of a join is the last character of its last
cell. -/
theorem getLast?_joinTab {x : List Char} (hx : x ≠ []) :
    ∀ l : List (List Char), (joinTab (l ++ [x])).getLast? = x.getLast? := by
  intro l
  induction l with
  | nil => rfl
  | cons a as ih =>
    have hne : joinTab (as ++ [x]) ≠ [] := by
      intro he
      have := ih
      rw [he] at this
      rw [List.getLast?_eq_getLast_of_ne_nil hx] at this
      exact absurd this.symm (by simp)
    cases has : as ++ [x] with
    | nil => exact absurd has (by simp)
    | cons b bs =>
      rw [List.cons_append, has]
      show (a ++ '\t' :: joinTab (b :: bs)).getLast? = x.getLast?
      rw [List.getLast?_append_cons]
      rw [has] at hne
      cases hj : joinTab (b :: bs) with
      | nil => exact absurd hj hne
      | cons j js =>
        rw [List.getLast?_cons_cons, ← hj, ← has, ih]

/-- `trimRightP` is Mathlib's `rdropWhile`. -/
theorem trimRightP_eq_rdropWhile (p : Char → Bool) (l : List Char) :
    trimRightP p l = List.rdropWhile p l := rfl

/-- A `TrimSpace`-invariant string is also invariant under the
right-trim alone. -/
theorem rdropWhile_eq_self_of_trimSpace_eq {x : List Char}
    (h : trimSpace x = x) : List.rdropWhile goIsSpace x = x := by
  have hdw : x.dropWhile goIsSpace = x := by
    have h1 : x <+: x.dropWhile goIsSpace := by
      conv_lhs => rw [← h]
      exact List.rdropWhile_prefix goIsSpace (x.dropWhile goIsSpace)
    have h2 := List.dropWhile_suffix (l := x) goIsSpace
    exact h2.eq_of_length (Nat.le_antisymm h2.length_le h1.length_le)
  conv_lhs => rw [← hdw]
  exact h

/-- The last character of a `TrimSpace`-invariant nonempty string is not
whitespace. -/
theorem getLast_not_space {x : List Char} (h : trimSpace x = x) (hx : x ≠ []) :
    goIsSpace (x.getLast hx) = false := by
  have hr := rdropWhile_eq_self_of_trimSpace_eq h
  have := List.rdropWhile_eq_self_iff.mp hr hx
  simpa using this

/-- The cutset of the per-line right-trim contains only whitespace. -/
theorem cutset_space {c : Char}
    (h : (c == ' ' || c == '\t' || c == '\r') = true) : goIsSpace c = true := by
  simp only [Bool.or_eq_true, beq_iff_eq] at h
  rcases h with (rfl | rfl) | rfl <;> rfl

/-- A line whose last character is not whitespace survives the per-line
right-trim. -/
theorem trimRightLine_eq_self {L : List Char}
    (hlast : ∀ hl : L ≠ [], goIsSpace (L.getLast hl) = false) :
    trimRightLine L = L := by
  rw [show trimRightLine L =
      List.rdropWhile (fun c => c == ' ' || c == '\t' || c == '\r') L from rfl]
  refine List.rdropWhile_eq_self_iff.mpr fun hl hq => ?_
  have := cutset_space hq
  rw [hlast hl] at this
  exact absurd this (by simp)

/-- Equal `getLast?` values give equal `getLast` values. -/
theorem getLast_eq_of_getLast? {l1 l2 : List Char} (h : l1.getLast? = l2.getLast?)
    (h1 : l1 ≠ []) (h2 : l2 ≠ []) : l1.getLast h1 = l2.getLast h2 := by
  rw [List.getLast?_eq_getLast_of_ne_nil h1, List.getLast?_eq_getLast_of_ne_nil h2] at h
  exact Option.some.inj h

/-- Unpack `cleanScalar`. -/
theorem cleanScalar_spec {x : List Char} (h : cleanScalar x = true) :
    ('\t' : Char) ∉ x ∧ ('\n' : Char) ∉ x ∧ trimRightLine x = x := by
  have h2 : (('\t' : Char) ∉ x ∧ ('\n' : Char) ∉ x) ∧ trimRightLine x = x := by
    simpa [cleanScalar] using h
  exact ⟨h2.1.1, h2.1.2, h2.2⟩

/-- Unpack `cleanCell`. -/
theorem cleanCell_spec {x : List Char} (h : cleanCell x = true) :
    ('\t' : Char) ∉ x ∧ ('\n' : Char) ∉ x ∧ trimSpace x = x := by
  have h2 : (('\t' : Char) ∉ x ∧ ('\n' : Char) ∉ x) ∧ trimSpace x = x := by
    simpa [cleanCell] using h
  exact ⟨h2.1.1, h2.1.2, h2.2⟩

/-- Mapping a function that fixes every element fixes the list. -/
theorem map_eq_self_of {α : Type} (f : α → α) (l : List α)
    (h : ∀ x ∈ l, f x = x) : l.map f = l := by
  induction l with
  | nil => rfl
  | cons a as ih => simp [h a (by simp), ih (fun x hx => h x (by simp [hx]))]

/-- The facts needed about each rendered cell line: nonempty,
newline-free, invariant under the per-line right-trim, split back into
its cells, each invariant under the per-field trim. -/
theorem cell_line_facts (cells : List (List Char))
    (hall : ∀ x ∈ cells, cleanCell x = true)
    (hne : ∀ x ∈ cells, x ≠ []) (hcne : cells ≠ []) :
    joinTab cells ≠ [] ∧ ('\n' : Char) ∉ joinTab cells ∧
    trimRightLine (joinTab cells) = joinTab cells ∧
    splitTab (joinTab cells) = cells ∧
    List.map trimSpace cells = cells := by
  have hlc : cells.getLast hcne ≠ [] := hne _ (List.getLast_mem hcne)
  have hLeq : (joinTab cells).getLast? = (cells.getLast hcne).getLast? := by
    conv_lhs => rw [← List.dropLast_append_getLast hcne]
    exact getLast?_joinTab hlc cells.dropLast
  refine ⟨?_, ?_, ?_, ?_, ?_⟩
  · cases cells with
    | nil => exact absurd rfl hcne
    | cons x xs => exact joinTab_ne_nil xs (hne x (by simp))
  · exact not_mem_joinTab (by decide) cells
      (fun x hx => (cleanCell_spec (hall x hx)).2.1)
  · refine trimRightLine_eq_self fun hl => ?_
    rw [getLast_eq_of_getLast? hLeq hl hlc]
    exact getLast_not_space (cleanCell_spec (hall _ (List.getLast_mem hcne))).2.2 hlc
  · exact splitTab_joinTab cells hcne (fun x hx => (cleanCell_spec (hall x hx)).1)
  · exact map_eq_self_of _ _ (fun x hx => (cleanCell_spec (hall x hx)).2.2)

/-- The last character of an append past a cons is that of the (nonempty)
tail. -/
theorem getLast?_line_append (a : List Char) (c : Char) {X : List Char}
    (hX : X ≠ []) : (a ++ c :: X).getLast? = X.getLast? := by
  rw [List.getLast?_append_cons]
  cases X with
  | nil => exact absurd rfl hX
  | cons b bs => exact List.getLast?_cons_cons

/-- A recognized type tag is a nonempty string. -/
theorem lookupChecker_ne_nil {x : List Char} (h : (lookupChecker x).isSome) :
    x ≠ [] := by
  intro he
  subst he
  have hfalse : (lookupChecker ([] : List Char)).isSome = false := rfl
  rw [hfalse] at h
  exact Bool.false_ne_true h

/-- Claim C2 counterexample: `mDirtyUnit` passes metadata validation,
but rendering then re-parsing trims the trailing space inside its second
unit, so the round trip does not reproduce an equivalent metadata even
though its comments are non-empty. -/
theorem c2_counterexample :
    Tsdata.ValidateMetadata mDirtyUnit = none ∧
    (Tsdata.ParseHeader emptyTsdata mDirtyUnit.Header).1 = none ∧
    (Tsdata.ParseHeader emptyTsdata mDirtyUnit.Header).2.Units ≠ mDirtyUnit.Units := by
  refine ⟨by decide, by decide, by decide⟩

/-- Claim C2 (amended): for metadata that passes validation and whose
fields survive the parser's trimming and splitting (no tabs or newlines
inside fields, scalars without trailing trimmed characters, cells
invariant under `TrimSpace`), rendering the header and re-parsing it
succeeds and reproduces every field, except that empty `comments`
re-parse as one `NA` per column. -/
theorem c2_render_parse_round_trip (m : Tsdata)
    (hv : m.ValidateMetadata = none) (hc : renderClean m = true) :
    (Tsdata.ParseHeader emptyTsdata m.Header).1 = none ∧
    (Tsdata.ParseHeader emptyTsdata m.Header).2.FileType = m.FileType ∧
    (Tsdata.ParseHeader emptyTsdata m.Header).2.Project = m.Project ∧
    (Tsdata.ParseHeader emptyTsdata m.Header).2.FileDescription = m.FileDescription ∧
    (Tsdata.ParseHeader emptyTsdata m.Header).2.Types = m.Types ∧
    (Tsdata.ParseHeader emptyTsdata m.Header).2.Units = m.Units ∧
    (Tsdata.ParseHeader emptyTsdata m.Header).2.Headers = m.Headers ∧
    (Tsdata.ParseHeader emptyTsdata m.Header).2.Comments = commentCells m := by
  -- unpack cleanliness
  have hcb := hc
  simp only [renderClean, Bool.and_eq_true, List.all_eq_true] at hcb
  obtain ⟨⟨⟨⟨⟨⟨hFT, hPJ⟩, hFD⟩, hCom⟩, hTy⟩, hUn⟩, hHd⟩ := hcb
  -- unpack validity
  obtain ⟨hFTne, hPJne, hComNE, hComLen, hTyKnown, hUnLen, hUnNE, hHdLen,
    hHd0, hHdNE, hTyLen⟩ := (validateMetadata_eq_none_iff m).mp hv
  have hHdLen2 : 2 ≤ m.Headers.length := by omega
  -- cell lists are nonempty with nonempty entries
  have hTyNEe : ∀ x ∈ m.Types, x ≠ [] := fun x hx =>
    lookupChecker_ne_nil (hTyKnown x hx)
  have hTyne : m.Types ≠ [] := by
    intro he; rw [he] at hTyLen; simp at hTyLen
  have hUnne : m.Units ≠ [] := by
    intro he; rw [he] at hUnLen; simp at hUnLen; omega
  have hHdne : m.Headers ≠ [] := by
    intro he; rw [he] at hHdLen; simp at hHdLen; omega
  -- the comments cells, in both cases
  have hCCall : ∀ x ∈ commentCells m, cleanCell x = true := by
    intro x hx
    unfold commentCells at hx
    by_cases hcc : m.Comments = []
    · rw [if_pos hcc] at hx
      rw [List.eq_of_mem_replicate hx]
      decide
    · rw [if_neg hcc] at hx
      exact hCom x hx
  have hCCne : ∀ x ∈ commentCells m, x ≠ [] := by
    intro x hx
    unfold commentCells at hx
    by_cases hcc : m.Comments = []
    · rw [if_pos hcc] at hx
      rw [List.eq_of_mem_replicate hx]
      decide
    · rw [if_neg hcc] at hx
      exact hComNE x hx
  have hCCnel : commentCells m ≠ [] := by
    unfold commentCells
    by_cases hcc : m.Comments = []
    · rw [if_pos hcc]
      simp only [ne_eq, List.replicate_eq_nil_iff]
      omega
    · rw [if_neg hcc]
      exact hcc
  -- per-line facts
  obtain ⟨hCne, hCnl, hCtrim, hCsplit, hCmap⟩ :=
    cell_line_facts (commentCells m) hCCall hCCne hCCnel
  obtain ⟨hTne, hTnl, hTtrim, hTsplit, hTmap⟩ :=
    cell_line_facts m.Types hTy hTyNEe hTyne
  obtain ⟨hUne, hUnl, hUtrim, hUsplit, hUmap⟩ :=
    cell_line_facts m.Units hUn hUnNE hUnne
  obtain ⟨hHne, hHnl, hHtrim, hHsplit, hHmap⟩ :=
    cell_line_facts m.Headers hHd hHdNE hHdne
  obtain ⟨hFTt, hFTn, hFTr⟩ := cleanScalar_spec hFT
  obtain ⟨hPJt, hPJn, hPJr⟩ := cleanScalar_spec hPJ
  obtain ⟨hFDt, hFDn, hFDr⟩ := cleanScalar_spec hFD
  -- the rendered text, with the comments row folded into commentCells
  have hH : m.Header =
      m.FileType ++ '\n' :: (m.Project ++ '\n' :: (m.FileDescription ++ '\n' ::
        (joinTab (commentCells m) ++ '\n' :: (joinTab m.Types ++ '\n' ::
          (joinTab m.Units ++ '\n' :: joinTab m.Headers))))) := by
    unfold Tsdata.Header commentCells nas
    by_cases hcc : m.Comments = []
    · rw [if_pos (by rw [hcc]; rfl), if_pos hcc]
    · rw [if_neg (by simpa [List.length_eq_zero] using hcc), if_neg hcc]
  -- the final line determines the last character
  have hlast : ¬m.Header.getLast? = some '\n' := by
    rw [hH, getLast?_line_append _ _ (by simp), getLast?_line_append _ _ (by simp),
      getLast?_line_append _ _ (by simp), getLast?_line_append _ _ (by simp),
      getLast?_line_append _ _ (by simp), getLast?_line_append _ _ hHne]
    rw [List.getLast?_eq_getLast_of_ne_nil hHne]
    intro heq
    exact hHnl (Option.some.inj heq ▸ List.getLast_mem hHne)
  have htrimsuf : trimNewlineSuffix m.Header = m.Header := by
    unfold trimNewlineSuffix
    rw [if_neg hlast]
  -- the seven lines
  have hsplit7 : splitNewline (trimNewlineSuffix m.Header) =
      [m.FileType, m.Project, m.FileDescription, joinTab (commentCells m),
        joinTab m.Types, joinTab m.Units, joinTab m.Headers] := by
    rw [htrimsuf, hH]
    unfold splitNewline
    rw [splitOnChar_append hFTn, splitOnChar_append hPJn, splitOnChar_append hFDn,
      splitOnChar_append hCnl, splitOnChar_append hTnl, splitOnChar_append hUnl,
      splitOnChar_eq_single hHnl]
  have hcount : headerLineCount m.Header = HeaderSize := by
    unfold headerLineCount
    rw [hsplit7]
    rfl
  -- the right-trimmed lines are unchanged
  have hlines : (splitNewline (trimNewlineSuffix m.Header)).map trimRightLine =
      [m.FileType, m.Project, m.FileDescription, joinTab (commentCells m),
        joinTab m.Types, joinTab m.Units, joinTab m.Headers] := by
    rw [hsplit7]
    simp only [List.map_cons, List.map_nil, hFTr, hPJr, hFDr, hCtrim, hTtrim,
      hUtrim, hHtrim]
  -- the assigned struct
  have happ : applyHeader emptyTsdata m.Header =
      { emptyTsdata with
          FileType := m.FileType
          Project := m.Project
          FileDescription := m.FileDescription
          Comments := commentCells m
          Types := m.Types
          Units := m.Units
          Headers := m.Headers
          checkers := m.Types.map lookupChecker } := by
    unfold applyHeader
    rw [hlines]
    simp only [List.getD_cons_zero, List.getD_cons_succ]
    have hFTs : splitTab m.FileType = [m.FileType] := splitOnChar_eq_single hFTt
    have hPJs : splitTab m.Project = [m.Project] := splitOnChar_eq_single hPJt
    have hFDs : splitTab m.FileDescription = [m.FileDescription] :=
      splitOnChar_eq_single hFDt
    rw [if_pos hCne, if_pos hTne, if_pos hUne, if_pos hHne,
      hCsplit, hTsplit, hUsplit, hHsplit, hCmap, hTmap, hUmap, hHmap,
      hFTs, hPJs, hFDs]
    rfl
  -- the assigned struct still validates
  have hvp : (applyHeader emptyTsdata m.Header).ValidateMetadata = none := by
    rw [happ]
    refine (validateMetadata_eq_none_iff _).mpr ?_
    refine ⟨hFTne, hPJne, hCCne, ?_, hTyKnown, hUnLen, hUnNE, hHdLen, hHd0,
      hHdNE, hTyLen⟩
    intro _
    unfold commentCells
    by_cases hcc : m.Comments = []
    · rw [if_pos hcc, List.length_replicate, hHdLen]
    · rw [if_neg hcc]
      exact hComLen hcc
  -- assemble
  have hres : Tsdata.ParseHeader emptyTsdata m.Header =
      (none, applyHeader emptyTsdata m.Header) := by
    simp only [Tsdata.ParseHeader]
    rw [if_neg (fun hx => hx hcount), hvp]
  rw [hres, happ]
  exact ⟨rfl, rfl, rfl, rfl, rfl, rfl, rfl, rfl⟩

/-- Claim C2 witness: a concrete valid, render-clean metadata value
round-trips. -/
theorem c2_witness :
    (Tsdata.ParseHeader emptyTsdata mClean.Header).1 = none ∧
    (Tsdata.ParseHeader emptyTsdata mClean.Header).2.Comments = commentCells mClean :=
  ⟨(c2_render_parse_round_trip mClean (by decide) (by decide)).1,
   (c2_render_parse_round_trip mClean (by decide) (by decide)).2.2.2.2.2.2.2⟩

end TsdataModel
